import Mathlib

/-!
Verification of the Cuckoo/Cuckaroo GPU edge trimmer
(src/miner/libcuckoo/src/cuda/trimmer.cu) against its specification.

The device kernels are embedded shallowly and sequentially: 64-bit lanes
become naturals reduced mod 2^64, shared/global arrays become functions
from indices, atomic counters become plain state threaded through folds,
and each kernel's per-bucket work is a fold over the bucket's edge list.
Compile-time constants from the build headers (NX, NZ, ZBITS, EDGEMASK,
FLUSHA, ...) are parameters, constrained as the spec constrains them
(powers of two, XBITS + YBITS + ZBITS = EDGEBITS).
-/

namespace CuckooGPU

/-! ## 64-bit word arithmetic -/

def W64 : Nat := 2 ^ 64

/-- u64 addition. -/
def add64 (a b : Nat) : Nat := (a + b) % W64

/-- u64 rotate left, `ROTL(x,b) = (x << b) | (x >> (64 - b))`. -/
def rot64 (x b : Nat) : Nat := ((x <<< b) % W64) ||| (x >>> (64 - b))

/-- The four 64-bit SipHash keys (struct siphash_keys). -/
structure SipKeys where
  k0 : Nat
  k1 : Nat
  k2 : Nat
  k3 : Nat

/-- The four SipHash lanes v0..v3. -/
structure SipState where
  v0 : Nat
  v1 : Nat
  v2 : Nat
  v3 : Nat
deriving DecidableEq

/-- Modelled from the spec: the reference SIPROUND macro (the siphash
header is not under src/; the spec demands the round function be
bit-identical to the reference SipHash-2-4 construction). -/
def sipRound (s : SipState) : SipState :=
  let v0 := add64 s.v0 s.v1
  let v1 := rot64 s.v1 13
  let v1 := v1 ^^^ v0
  let v0 := rot64 v0 32
  let v2 := add64 s.v2 s.v3
  let v3 := rot64 s.v3 16
  let v3 := v3 ^^^ v2
  let v0 := add64 v0 v3
  let v3 := rot64 v3 21
  let v3 := v3 ^^^ v0
  let v2 := add64 v2 v1
  let v1 := rot64 v1 17
  let v1 := v1 ^^^ v2
  let v2 := rot64 v2 32
  ⟨v0, v1, v2, v3⟩

/-- Lanes initialised from the keys. -/
def initState (k : SipKeys) : SipState := ⟨k.k0, k.k1, k.k2, k.k3⟩

/-- One SipHash-2-4 absorption of a message word into a running state:
`v3 ^= nonce; SIPROUND; SIPROUND; v0 ^= nonce; v2 ^= 0xff;` then four
SIPROUNDs.  This is the body shared by `dipnode` (trimmer.cu:27) and each
iteration of `dipblock` (trimmer.cu:67). -/
def hash24 (s : SipState) (nonce : Nat) : SipState :=
  let s := { s with v3 := s.v3 ^^^ nonce }
  let s := sipRound (sipRound s)
  let s := { s with v0 := s.v0 ^^^ nonce, v2 := s.v2 ^^^ 0xff }
  sipRound (sipRound (sipRound (sipRound s)))

/-- Xor of the four lanes. -/
def xorLanes (s : SipState) : Nat := s.v0 ^^^ s.v1 ^^^ s.v2 ^^^ s.v3

/-- The reference one-shot SipHash-2-4 of a single nonce, as the spec
describes it: absorb the nonce into v3, two SIPROUNDs, v0 ^= nonce,
v2 ^= 0xff, four SIPROUNDs, xor of the four lanes. -/
def siphash24 (k : SipKeys) (nonce : Nat) : Nat := xorLanes (hash24 (initState k) nonce)

/-- Function `dipnode` (trimmer.cu:27-35): the Cuckoo-mode edge-endpoint oracle.
`edgeMask` stands for the EDGEMASK constant. -/
def dipnode (keys : SipKeys) (edgeMask nce uorv : Nat) : Nat :=
  let nonce : Nat := 2 * nce + uorv
  let s : SipState := ⟨keys.k0, keys.k1, keys.k2, keys.k3 ^^^ nonce⟩
  let s := sipRound (sipRound s)
  let s := { s with v0 := s.v0 ^^^ nonce, v2 := s.v2 ^^^ 0xff }
  let s := sipRound (sipRound (sipRound (sipRound s)))
  (s.v0 ^^^ s.v1 ^^^ s.v2 ^^^ s.v3) &&& edgeMask

/-! ## The Cuckaroo block oracle (dipblock) -/

/-- The running SipHash state after absorbing the `k` consecutive nonces
`start, start+1, ..., start+k-1` with `hash24` (no state reset between
nonces).  This is the clean description of what `dipblock`'s loop does to
its state. -/
def absorbRun (s : SipState) (start : Nat) : Nat → SipState
  | 0 => s
  | k + 1 => hash24 (absorbRun s start k) (start + k)

/-- The loop of `dipblock` (trimmer.cu:74-85): absorbs `k` consecutive
nonces starting at `start` into the running state, recording the lane-xor
after each absorption; returns the recorded list and the final state. -/
def dipblockLoop (s : SipState) (start : Nat) : Nat → List Nat × SipState
  | 0 => ([], s)
  | k + 1 =>
      let s1 := hash24 s start
      let r := dipblockLoop s1 (start + 1) k
      (xorLanes s1 :: r.1, r.2)

/-- Function `dipblock` (trimmer.cu:67-98): for the 64-nonce block containing
`edge`, fills `buf` with the chained lane-xors of nonces
`edge0 .. edge0+62`, stores 0 in `buf[63]`, and returns the chained
lane-xor of nonce `edge0+63`.  `edge & ~EDGE_BLOCK_MASK` on the 32-bit
`edge_t` is `edge &&& 0xFFFFFFC0`. -/
def dipblock (keys : SipKeys) (edge : Nat) : List Nat × Nat :=
  let edge0 := edge &&& 0xFFFFFFC0
  let r := dipblockLoop (initState keys) edge0 63
  let sl := hash24 r.2 (edge0 + 63)
  (r.1 ++ [0], xorLanes sl)

/-- The 64-bit Cuckaroo edge of nonce `n`: `buf[n % 64] ^ last` exactly as
`Cuckaroo_SeedA` (trimmer.cu:186-190) and `Cuckaroo_Recovery`
(trimmer.cu:117-121) compute it from `dipblock`. -/
def cuckarooEdge (keys : SipKeys) (n : Nat) : Nat :=
  let r := dipblock keys n
  r.1.getD (n % 64) 0 ^^^ r.2

/-- The Cuckaroo edge formula exactly as the spec words it, with
`siphash24` the one-shot reference hash of claim C1:
`edge = b[n mod 64] XOR b[63]` where `b[i] = siphash24(K, (n & ~63) + i)`
and the final slot `b[63]` is treated as zero when xored with itself.
Stated for refinement comparison with `cuckarooEdge` above. -/
def specCuckarooEdge (keys : SipKeys) (n : Nat) : Nat :=
  let n0 := n &&& 0xFFFFFFC0
  (if n % 64 = 63 then 0 else siphash24 keys (n0 + n % 64)) ^^^ siphash24 keys (n0 + 63)

/-- The endpoint pair of a Cuckaroo edge: `u = edge & EDGEMASK`,
`v = (edge >> 32) & EDGEMASK` (trimmer.cu:122-123, 191-192). -/
def cuckarooNodes (keys : SipKeys) (edgeMask n : Nat) : Nat × Nat :=
  (cuckarooEdge keys n &&& edgeMask, (cuckarooEdge keys n >>> 32) &&& edgeMask)

/-- The endpoint pair of a Cuckoo edge (both `dipnode` calls,
trimmer.cu:148-149, 241-243). -/
def cuckooNodes (keys : SipKeys) (edgeMask n : Nat) : Nat × Nat :=
  (dipnode keys edgeMask n 0, dipnode keys edgeMask n 1)

/-! ## Edges, null sentinels, endpoints -/

/-- Overload `null(uint2 nodes)` (trimmer.cu:62-64): the all-zero edge is the null
sentinel. -/
def nullPair (e : Nat × Nat) : Bool := e.1 == 0 && e.2 == 0

/-- Overload `null(u32 nonce)` (trimmer.cu:58-60): in compact (nonce-only) form the
zero nonce is the null sentinel. -/
def nullNonce (n : Nat) : Bool := n == 0

/-- Overload `endpoint(uint2 nodes, int uorv)` (trimmer.cu:100-102, 401-403):
`uorv ? nodes.y : nodes.x`. -/
def endpoint (e : Nat × Nat) (uorv : Nat) : Nat := if uorv != 0 then e.2 else e.1

/-- Overload `endpoint(siphash_keys, u32 nonce, int uorv)` (trimmer.cu:397-399):
a compact edge re-derives its endpoint with `dipnode`. -/
def endpointOfNonce (keys : SipKeys) (edgeMask nonce uorv : Nat) : Nat :=
  dipnode keys edgeMask nonce uorv

/-! ## The shared two-bit degree counters

The shared array `ecounters` (NZ/16 32-bit words, two planes of NZ/32
words) is modelled as a function from word index to word value; the
atomics of the one-thread-per-edge loops become a sequential fold. -/

/-- Pointwise update of a word array. -/
def ctrUpdate (s : Nat → Nat) (i v : Nat) : Nat → Nat := fun j => if j = i then v else s j

/-- Function `Increase2bCounter` (trimmer.cu:39-47): set the plane-0 bit of
`bucket`; if it was already set, also set the plane-1 bit (plane 1 starts
NZ/32 words in). `nz` stands for the NZ constant. -/
def Increase2bCounter (nz : Nat) (s : Nat → Nat) (bucket : Nat) : Nat → Nat :=
  let word := bucket >>> 5
  let mask := 1 <<< (bucket &&& 0x1F)
  let old := s word &&& mask
  let s1 := ctrUpdate s word (s word ||| mask)
  if old != 0 then ctrUpdate s1 (word + nz / 32) (s1 (word + nz / 32) ||| mask) else s1

/-- Function `Read2bCounter` (trimmer.cu:49-55): the plane-1 bit of `bucket`. -/
def Read2bCounter (nz : Nat) (s : Nat → Nat) (bucket : Nat) : Bool :=
  (s (bucket >>> 5 + nz / 32) &&& (1 <<< (bucket &&& 0x1F))) != 0

/-- All the `Increase2bCounter` calls of one counting pass, folded over the
z-values in bucket order, starting from the zeroed array
(trimmer.cu:335-337). -/
def ctrLoad (nz : Nat) (zs : List Nat) : Nat → Nat :=
  zs.foldl (Increase2bCounter nz) (fun _ => 0)

/-! ## The Round kernel on one bucket

One thread block processes one source bucket (trimmer.cu:326-378); its two
phases become two passes over the bucket's edge list.  ZMASK is NZ - 1
(the spec's Z-subspace residue). -/

/-- Round phase 1 (count, trimmer.cu:340-354) on packed (uint2) edges:
for every live edge bump the counter of `endpoint(edge, round & 1) & ZMASK`. -/
def RoundCount (nz round : Nat) (bucket : List (Nat × Nat)) : Nat → Nat :=
  bucket.foldl
    (fun s e => if nullPair e then s
      else Increase2bCounter nz s (endpoint e (round &&& 1) &&& (nz - 1))) (fun _ => 0)

/-- Round phase 2 (emit, trimmer.cu:357-376) on packed edges in and out:
keep the live edges whose counted endpoint's plane-1 bit is set (for uint2
input and output `make_Edge` returns the edge unchanged). -/
def RoundKeep (nz round : Nat) (bucket : List (Nat × Nat)) : List (Nat × Nat) :=
  let s := RoundCount nz round bucket
  bucket.filter (fun e => !nullPair e &&
    Read2bCounter nz s (endpoint e (round &&& 1) &&& (nz - 1)))

/-- Round phase 1 on compact (u32 nonce) edges: endpoints are re-derived
with `endpoint(sipkeys, nonce, round & 1)` (trimmer.cu:350, 397-399). -/
def RoundCountNonce (keys : SipKeys) (edgeMask nz round : Nat) (bucket : List Nat) :
    Nat → Nat :=
  bucket.foldl
    (fun s n => if nullNonce n then s
      else Increase2bCounter nz s (endpointOfNonce keys edgeMask n (round &&& 1) &&& (nz - 1)))
    (fun _ => 0)

/-- Round phase 2 on compact edges with uint2 output: a kept nonce is
expanded with `make_Edge(nonce, *dst, node0, node1)`, endpoint order
swapped on odd rounds (trimmer.cu:366-372, 405-407). -/
def RoundKeepNonce (keys : SipKeys) (edgeMask nz round : Nat) (bucket : List Nat) :
    List (Nat × Nat) :=
  let s := RoundCountNonce keys edgeMask nz round bucket
  bucket.filterMap (fun n =>
    if !nullNonce n &&
        Read2bCounter nz s (endpointOfNonce keys edgeMask n (round &&& 1) &&& (nz - 1)) then
      let node0 := endpointOfNonce keys edgeMask n (round &&& 1)
      let node1 := endpointOfNonce keys edgeMask n ((round &&& 1) ^^^ 1)
      some (if round &&& 1 = 1 then (node1, node0) else (node0, node1))
    else none)

/-- One destination-bucket insert of Round phase 2 (trimmer.cu:370-372):
`bktIdx = min(atomicAdd(dstIds + bucket, 1), maxOut - 1)`, then the edge is
written at that slot of the bucket (the raw counter keeps growing). -/
def RoundDstInsert (maxOut : Nat) (st : Nat × (Nat → Option (Nat × Nat))) (e : Nat × Nat) :
    Nat × (Nat → Option (Nat × Nat)) :=
  let bktIdx := min st.1 (maxOut - 1)
  (st.1 + 1, fun j => if j = bktIdx then some e else st.2 j)

/-- A run of destination-bucket inserts starting from the zeroed counter
and an unwritten bucket. -/
def RoundDstRun (maxOut : Nat) (es : List (Nat × Nat)) : Nat × (Nat → Option (Nat × Nat)) :=
  es.foldl (RoundDstInsert maxOut) (0, fun _ => none)

/-! ## The seeding kernels (Seed A / Seed B)

Both bucketing kernels stage edges in per-row (per-column) shared tiles
and flush a tile into its global bucket by atomically reserving a clamped
run (`cnt = min(atomicAdd(indexes + bucket, n), maxOut - n)`,
trimmer.cu:197-219, 302-322).  The machine below is the sequential
rendering of one thread block: `tiles` are the shared `tmp` rows with
their `counters`, `idx` the global per-bucket index array, `buf` the
global edge buffer (a cell is `none` until first written). -/

structure ScatterState where
  tiles : Nat → List (Nat × Nat)
  idx : Nat → Nat
  buf : Nat → Option (Nat × Nat)

/-- All-empty initial state (indexes are memset to 0, the edge buffer is
uninitialised: no cell has been written). -/
def scatInit : ScatterState := ⟨fun _ => [], fun _ => 0, fun _ => none⟩

/-- Write a list of edges at consecutive buffer positions starting at
`pos` (the copy loops of trimmer.cu:202-203, 216-217, 307-308, 319-320). -/
def writeRun : (Nat → Option (Nat × Nat)) → Nat → List (Nat × Nat) → Nat → Option (Nat × Nat)
  | buf, _, [] => buf
  | buf, pos, e :: es => writeRun (fun j => if j = pos then some e else buf j) (pos + 1) es

/-- Flush tile `r` into global bucket `bkt`: reserve
`cnt = min(idx bkt, maxOut - n)` slots, bump the raw per-bucket index by
`n`, copy the tile out, empty the tile. -/
def flushTile (maxOut bkt : Nat) (st : ScatterState) (r : Nat) : ScatterState :=
  let t := st.tiles r
  let cnt := min (st.idx bkt) (maxOut - t.length)
  { tiles := fun r' => if r' = r then [] else st.tiles r'
    idx := fun b => if b = bkt then st.idx b + t.length else st.idx b
    buf := writeRun st.buf (bkt * maxOut + cnt) t }

/-- One staged edge: route it to tile `route e`, append it there, and when
the tile reaches the flush threshold flush it to bucket `bktOf (route e)`.
When `skipNull` is set, null edges are skipped
(`if (null(edge)) continue`, trimmer.cu:295). -/
def scatStep (route : Nat × Nat → Nat) (skipNull : Bool) (bktOf : Nat → Nat)
    (flushN maxOut : Nat) (st : ScatterState) (e : Nat × Nat) : ScatterState :=
  if skipNull && nullPair e then st
  else
    let r := route e
    let t := st.tiles r ++ [e]
    let st' := { st with tiles := fun r' => if r' = r then t else st.tiles r' }
    if t.length = flushN then flushTile maxOut (bktOf r) st' r else st'

/-- A whole block: stage every edge, then final-flush every tile
(trimmer.cu:212-219, 316-322). -/
def scatRun (route : Nat × Nat → Nat) (skipNull : Bool) (bktOf : Nat → Nat)
    (flushN maxOut nTiles : Nat) (es : List (Nat × Nat)) : ScatterState :=
  let st := es.foldl (scatStep route skipNull bktOf flushN maxOut) scatInit
  (List.range nTiles).foldl (fun s r => flushTile maxOut (bktOf r) s r) st

/-- Seed A for one block of the grid, generic in the edge oracle
(`Cuckaroo_SeedA` derives edges with `dipblock`, the templated
`Cuckoo_SeedA` with `dipnode`): each edge is routed to row
`node0 >> YZBITS` and the block's column is `col = group % NX`
(trimmer.cu:184-219).  YZBITS is YBITS + ZBITS. -/
def SeedA (edgeOf : Nat → Nat × Nat) (yzbits nx col flusha maxOut : Nat)
    (nonces : List Nat) : ScatterState :=
  scatRun (fun e => e.1 >>> yzbits) false (fun r => r * nx + col) flusha maxOut nx
    (nonces.map edgeOf)

/-- Kernel `Cuckaroo_SeedA` (trimmer.cu:168-220) instantiates the staging machine
with the Cuckaroo block oracle. -/
def Cuckaroo_SeedA (keys : SipKeys) (edgeMask yzbits nx col flusha maxOut : Nat)
    (nonces : List Nat) : ScatterState :=
  SeedA (cuckarooNodes keys edgeMask) yzbits nx col flusha maxOut nonces

/-- Kernel `SeedB` (trimmer.cu:272-323) for one row-bucket `row`: each live edge
is routed to column `col = (endpoint(keys, edge, 0) >> ZBITS) & XMASK` and
flushed into grid bucket `(row, col)`.  XMASK is NX - 1. -/
def SeedB (zbits xmask row nx flushb maxOut : Nat) (src : List (Nat × Nat)) : ScatterState :=
  scatRun (fun e => (endpoint e 0 >>> zbits) &&& xmask) true (fun c => row * nx + c)
    flushb maxOut nx src

/-! ## The Tail kernel -/

/-- Kernel `Tail` (trimmer.cu:380-394) for one block: `myEdges` is the bucket's
raw count, `destIdx` the run reserved by `atomicAdd(destinationIndexes,
myEdges)`.  Each of the `dim` threads runs
`for (i = lid; i < myEdges; i += dim) destination[destIdx + lid] =
source[group * maxIn + lid]` — the body indexes with `lid`, not `i`, so a
thread's iterations all repeat one and the same write. -/
def Tail (dim maxIn group : Nat) (source : Nat → Nat × Nat) (myEdges destIdx : Nat)
    (dest : Nat → Option (Nat × Nat)) : Nat → Option (Nat × Nat) :=
  (List.range dim).foldl
    (fun d lid =>
      if lid < myEdges then
        fun j => if j = destIdx + lid then some (source (group * maxIn + lid)) else d j
      else d)
    dest

/-! ## The recovery kernels -/

/-- The nonce-scan shared by `Cuckaroo_Recovery` and `Cuckoo_Recovery`
(trimmer.cu:117-128, 146-154): scan all nonces in order; whenever the
nonce's edge equals the expected pair of slot `p`, record the nonce there
(`nonces[p] = nonce`); slots start at 0. -/
def recoverNonces (edgeOf : Nat → Nat × Nat) (nedges : Nat) (expected : Nat → Nat × Nat)
    (p : Nat) : Nat :=
  (List.range nedges).foldl (fun acc n => if edgeOf n = expected p then n else acc) 0

/-- The final store of both recovery kernels (trimmer.cu:131-134,
156-159): a slot is written out only when the recorded nonce is strictly
positive; otherwise the output keeps its prior value. -/
def recoveryStore (init : Nat → Nat) (nonces : Nat → Nat) (p : Nat) : Nat :=
  if nonces p > 0 then nonces p else init p

/-- Kernel `Cuckoo_Recovery` (trimmer.cu:137-160): edges re-derived with
`dipnode`. -/
def Cuckoo_Recovery (keys : SipKeys) (edgeMask nedges : Nat) (expected : Nat → Nat × Nat)
    (p : Nat) : Nat :=
  recoverNonces (cuckooNodes keys edgeMask) nedges expected p

/-- Kernel `Cuckaroo_Recovery` (trimmer.cu:107-135): edges re-derived with
`dipblock`. -/
def Cuckaroo_Recovery (keys : SipKeys) (edgeMask nedges : Nat) (expected : Nat → Nat × Nat)
    (p : Nat) : Nat :=
  recoverNonces (cuckarooNodes keys edgeMask) nedges expected p

/-- The two bitplanes encode occurrence counts: plane 0 records count at
least 1, plane 1 count at least 2, for every z below nz. -/
def encodes (nz : Nat) (s : Nat → Nat) (f : Nat → Nat) : Prop :=
  ∀ z, z < nz →
    ((s (z / 32)).testBit (z % 32) = decide (1 ≤ f z)) ∧
    ((s (z / 32 + nz / 32)).testBit (z % 32) = decide (2 ≤ f z))

/-- Invariant of the staging machine: every staged tile entry sits in the
tile its route selects, every written buffer cell sits inside the capacity
window of the bucket its edge routes to, and every recorded edge satisfies
the ambient property `Q`. -/
def ScatInv (route : Nat × Nat → Nat) (bktOf : Nat → Nat) (flushN maxOut : Nat)
    (Q : Nat × Nat → Prop) (st : ScatterState) : Prop :=
  (∀ r, (st.tiles r).length < flushN ∧ ∀ x ∈ st.tiles r, route x = r ∧ Q x) ∧
  (∀ a x, st.buf a = some x → a / maxOut = bktOf (route x) ∧ Q x)

/-! ## Helper lemmas: bit arithmetic and the counter planes -/

lemma and_shift_ne (a b : Nat) : ((a &&& (1 <<< b)) != 0) = a.testBit b := by
  rw [Nat.one_shiftLeft, Nat.and_two_pow]
  cases h : a.testBit b <;> simp [h]

lemma shift5 (z : Nat) : z >>> 5 = z / 32 := by
  rw [Nat.shiftRight_eq_div_pow]

lemma and31 (z : Nat) : z &&& 0x1F = z % 32 := by
  have h : (0x1F : Nat) = 2 ^ 5 - 1 := by norm_num
  rw [h, Nat.and_pow_two_sub_one_eq_mod]

lemma word_lt {zb z : Nat} (h5 : 5 ≤ zb) (hz : z < 2 ^ zb) : z / 32 < 2 ^ zb / 32 := by
  obtain ⟨m, hm⟩ : (32 : Nat) ∣ 2 ^ zb := by
    have h32 : (32 : Nat) = 2 ^ 5 := by norm_num
    exact h32 ▸ pow_dvd_pow 2 h5
  have hpos : 0 < 2 ^ zb := by positivity
  rw [hm, Nat.mul_div_cancel_left _ (by norm_num : (0:Nat) < 32)]
  omega

/-- Normal form of one counter bump (two planes, OR-mask semantics). -/
lemma Increase2bCounter_eq {zb x : Nat} (h5 : 5 ≤ zb) (hx : x < 2 ^ zb) (s : Nat → Nat) :
    Increase2bCounter (2 ^ zb) s x = fun j =>
      if j = x / 32 then s (x / 32) ||| 2 ^ (x % 32)
      else if j = x / 32 + 2 ^ zb / 32 ∧ (s (x / 32)).testBit (x % 32) = true then
        s j ||| 2 ^ (x % 32)
      else s j := by
  have hwx : x / 32 < 2 ^ zb / 32 := word_lt h5 hx
  have hne : x / 32 + 2 ^ zb / 32 ≠ x / 32 := by omega
  have hne' : x / 32 ≠ x / 32 + 2 ^ zb / 32 := by omega
  have hnz0 : 2 ^ zb / 32 ≠ 0 := by omega
  funext j
  simp only [Increase2bCounter, ctrUpdate, shift5, and31, Nat.one_shiftLeft]
  have hand : s (x / 32) &&& 2 ^ (x % 32) =
      ((s (x / 32)).testBit (x % 32)).toNat * 2 ^ (x % 32) := Nat.and_two_pow _ _
  by_cases hb : (s (x / 32)).testBit (x % 32) = true
  · have hC : (s (x / 32) &&& 2 ^ (x % 32) != 0) = true := by
      rw [hand, hb]
      simp
    simp only [hC, if_true]
    by_cases hj1 : j = x / 32
    · simp [ctrUpdate, hj1, hne, hne']
    · by_cases hj2 : j = x / 32 + 2 ^ zb / 32
      · simp [ctrUpdate, hj1, hj2, hne, hnz0, hb]
      · simp [ctrUpdate, hj1, hj2, hnz0, hb]
  · have hC : (s (x / 32) &&& 2 ^ (x % 32) != 0) = false := by
      rw [hand]
      simp only [Bool.not_eq_true] at hb
      rw [hb]
      simp
    simp only [hC, Bool.false_eq_true, if_false]
    by_cases hj1 : j = x / 32
    · simp [ctrUpdate, hj1, hb]
    · simp [ctrUpdate, hj1, hb]

lemma encodes_congr {nz : Nat} {s : Nat → Nat} {f g : Nat → Nat} (h : encodes nz s f)
    (hfg : ∀ z, z < nz → f z = g z) : encodes nz s g := by
  intro z hz
  obtain ⟨h1, h2⟩ := h z hz
  rw [hfg z hz] at h1 h2
  exact ⟨h1, h2⟩

lemma encodes_increase {zb : Nat} (h5 : 5 ≤ zb) {s f : Nat → Nat}
    (hs : encodes (2 ^ zb) s f) {x : Nat} (hx : x < 2 ^ zb) :
    encodes (2 ^ zb) (Increase2bCounter (2 ^ zb) s x)
      (fun z => if z = x then f z + 1 else f z) := by
  rw [Increase2bCounter_eq h5 hx]
  intro z hz
  have hwz : z / 32 < 2 ^ zb / 32 := word_lt h5 hz
  have hwx : x / 32 < 2 ^ zb / 32 := word_lt h5 hx
  obtain ⟨hz1, hz2⟩ := hs z hz
  obtain ⟨hx1, _⟩ := hs x hx
  constructor
  · by_cases hw : z / 32 = x / 32
    · simp only [hw, if_pos rfl, Nat.testBit_or, Nat.testBit_two_pow]
      by_cases hzx : z = x
      · subst hzx
        simp
      · have hbne : x % 32 ≠ z % 32 := fun hb => hzx (by omega)
        rw [← hw]
        simp [hzx, hbne, hz1]
    · have hne2 : ¬(z / 32 = x / 32 + 2 ^ zb / 32 ∧ (s (x / 32)).testBit (x % 32) = true) := by
        rintro ⟨h1, -⟩
        omega
      have hzx : z ≠ x := fun h => hw (by rw [h])
      simp [hw, hne2, hzx, hz1]
  · have hne1 : z / 32 + 2 ^ zb / 32 ≠ x / 32 := by omega
    by_cases hw : z / 32 = x / 32
    · by_cases hb : (s (x / 32)).testBit (x % 32) = true
      · have hc : z / 32 + 2 ^ zb / 32 = x / 32 + 2 ^ zb / 32 ∧
            (s (x / 32)).testBit (x % 32) = true := ⟨by omega, hb⟩
        simp only [if_neg hne1, if_pos hc, Nat.testBit_or, Nat.testBit_two_pow]
        by_cases hzx : z = x
        · subst hzx
          have h1 : (1 : Nat) ≤ f z := by
            rw [hb] at hx1
            exact of_decide_eq_true hx1.symm
          simp only [if_pos rfl]
          simp only [decide_eq_true_eq] at *
          simp
          omega
        · have hbne : x % 32 ≠ z % 32 := fun hbe => hzx (by omega)
          simp [hzx, hbne, hz2]
      · have hc : ¬(z / 32 + 2 ^ zb / 32 = x / 32 + 2 ^ zb / 32 ∧
            (s (x / 32)).testBit (x % 32) = true) := by
          rintro ⟨-, h2⟩
          exact hb h2
        simp only [if_neg hne1, if_neg hc]
        by_cases hzx : z = x
        · subst hzx
          have h0 : f z = 0 := by
            rw [Bool.not_eq_true] at hb
            rw [hb] at hx1
            have := of_decide_eq_false hx1.symm
            omega
          simp [h0, hz2]
        · simp [hzx, hz2]
    · have hc : ¬(z / 32 + 2 ^ zb / 32 = x / 32 + 2 ^ zb / 32 ∧
          (s (x / 32)).testBit (x % 32) = true) := by
        rintro ⟨h1, -⟩
        omega
      have hzx : z ≠ x := fun h => hw (by rw [h])
      simp [hne1, hc, hw, hzx, hz2]

lemma encodes_foldl {zb : Nat} (h5 : 5 ≤ zb) :
    ∀ (l : List Nat) (s f : Nat → Nat), encodes (2 ^ zb) s f → (∀ x ∈ l, x < 2 ^ zb) →
      encodes (2 ^ zb) (l.foldl (Increase2bCounter (2 ^ zb)) s)
        (fun z => f z + l.count z)
  | [], s, f, hs, _ => by
      simpa using hs
  | x :: l, s, f, hs, hl => by
      have hx : x < 2 ^ zb := hl x (List.mem_cons_self x l)
      have hrec := encodes_foldl h5 l (Increase2bCounter (2 ^ zb) s x)
        (fun z => if z = x then f z + 1 else f z)
        (encodes_increase h5 hs hx) (fun y hy => hl y (List.mem_cons_of_mem _ hy))
      simp only [List.foldl_cons]
      refine encodes_congr hrec (fun z _ => ?_)
      by_cases hzx : z = x
      · subst hzx
        simp [List.count_cons]
        omega
      · simp [List.count_cons, hzx]

lemma encodes_zero (nz : Nat) : encodes nz (fun _ => 0) (fun _ => 0) := by
  intro z _
  simp

/-- Loading a list of z-values and reading back: plane 1 says seen at
least twice. -/
lemma Read2bCounter_ctrLoad {zb : Nat} (h5 : 5 ≤ zb) (l : List Nat)
    (hl : ∀ x ∈ l, x < 2 ^ zb) {z : Nat} (hz : z < 2 ^ zb) :
    Read2bCounter (2 ^ zb) (ctrLoad (2 ^ zb) l) z = decide (2 ≤ l.count z) := by
  have henc := encodes_foldl h5 l (fun _ => 0) (fun _ => 0) (encodes_zero _) hl
  obtain ⟨-, h2⟩ := henc z hz
  simp only [Nat.zero_add] at h2
  rw [show ctrLoad (2 ^ zb) l = l.foldl (Increase2bCounter (2 ^ zb)) (fun _ => 0) from rfl,
    Read2bCounter, and_shift_ne, shift5, and31]
  exact h2

/-! ## Helper lemmas: the chained block hash -/

lemma absorbRun_front (s : SipState) (start : Nat) :
    ∀ k, absorbRun s start (k + 1) = absorbRun (hash24 s start) (start + 1) k := by
  intro k
  induction k with
  | zero => simp [absorbRun]
  | succ k ih =>
      show hash24 (absorbRun s start (k + 1)) (start + (k + 1)) = _
      rw [ih]
      show _ = hash24 (absorbRun (hash24 s start) (start + 1) k) (start + 1 + k)
      congr 1
      omega

lemma absorbRun_append (s : SipState) (start : Nat) :
    ∀ m k, absorbRun s start (m + k) = absorbRun (absorbRun s start m) (start + m) k := by
  intro m k
  induction k with
  | zero => rfl
  | succ k ih =>
      show hash24 (absorbRun s start (m + k)) (start + (m + k)) = _
      rw [ih]
      show _ = hash24 (absorbRun (absorbRun s start m) (start + m) k) (start + m + k)
      congr 1
      omega

lemma dipblockLoop_snd : ∀ (k : Nat) (s : SipState) (start : Nat),
    (dipblockLoop s start k).2 = absorbRun s start k
  | 0, _, _ => rfl
  | k + 1, s, start => by
      show (dipblockLoop (hash24 s start) (start + 1) k).2 = _
      rw [dipblockLoop_snd k, absorbRun_front]

lemma dipblockLoop_length : ∀ (k : Nat) (s : SipState) (start : Nat),
    (dipblockLoop s start k).1.length = k
  | 0, _, _ => rfl
  | k + 1, s, start => by
      show ((dipblockLoop (hash24 s start) (start + 1) k).1.length) + 1 = k + 1
      rw [dipblockLoop_length k]

lemma dipblockLoop_getD : ∀ (k : Nat) (s : SipState) (start j : Nat), j < k →
    (dipblockLoop s start k).1.getD j 0 = xorLanes (absorbRun s start (j + 1))
  | 0, _, _, j, h => absurd h (Nat.not_lt_zero j)
  | k + 1, s, start, 0, _ => by
      show xorLanes (hash24 s start) = xorLanes (absorbRun s start 1)
      simp [absorbRun]
  | k + 1, s, start, j + 1, h => by
      show (dipblockLoop (hash24 s start) (start + 1) k).1.getD j 0 = _
      rw [dipblockLoop_getD k _ _ j (by omega), ← absorbRun_front]

lemma and_blockmask {n : Nat} (hn : n < 2 ^ 32) : n &&& 0xFFFFFFC0 = 64 * (n / 64) := by
  apply Nat.eq_of_testBit_eq
  intro i
  rw [Nat.testBit_and]
  have hshift : 64 * (n / 64) = (n >>> 6) <<< 6 := by
    rw [Nat.shiftLeft_eq, Nat.shiftRight_eq_div_pow]
    norm_num
    ring
  rcases lt_or_ge i 6 with h6 | h6
  · have hm : Nat.testBit 0xFFFFFFC0 i = false := by interval_cases i <;> decide
    have hr : Nat.testBit (64 * (n / 64)) i = false := by
      rw [hshift, Nat.testBit_shiftLeft]
      simp [h6]
    rw [hm, hr]
    simp
  · rcases lt_or_ge i 32 with h32 | h32
    · have hm : Nat.testBit 0xFFFFFFC0 i = true := by interval_cases i <;> decide
      have hr : Nat.testBit (64 * (n / 64)) i = Nat.testBit n i := by
        rw [hshift, Nat.testBit_shiftLeft, Nat.testBit_shiftRight]
        have h1 : 6 + (i - 6) = i := by omega
        rw [h1]
        simp [h6]
      rw [hm, hr]
      simp
    · have h2i : (2:Nat) ^ 32 ≤ 2 ^ i := Nat.pow_le_pow_right (by norm_num) h32
      have hm : Nat.testBit 0xFFFFFFC0 i = false :=
        Nat.testBit_lt_two_pow (lt_of_lt_of_le (by norm_num) h2i)
      have hr : Nat.testBit (64 * (n / 64)) i = false := by
        apply Nat.testBit_lt_two_pow
        have : 64 * (n / 64) ≤ n := Nat.mul_div_le n 64
        omega
      have hn' : Nat.testBit n i = false :=
        Nat.testBit_lt_two_pow (lt_of_lt_of_le hn h2i)
      rw [hm, hr, hn']
      simp

/-- The Cuckaroo edge as the xor of chained block-hash read-outs (the
shared fact behind claim C2's amended statement and counterexample). -/
lemma cuckarooEdge_chain_aux (keys : SipKeys) (n : Nat) (hn : n < 2 ^ 32) :
    cuckarooEdge keys n =
      (if n % 64 = 63 then 0
       else xorLanes (absorbRun (initState keys) (64 * (n / 64)) (n % 64 + 1))) ^^^
      xorLanes (absorbRun (initState keys) (64 * (n / 64)) 64) := by
  have hmask := and_blockmask hn
  have hlen := dipblockLoop_length 63 (initState keys) (64 * (n / 64))
  have hmod : n % 64 < 64 := Nat.mod_lt _ (by norm_num)
  rw [cuckarooEdge, dipblock, hmask]
  by_cases h63 : n % 64 = 63
  · rw [if_pos h63, h63]
    rw [List.getD_append_right _ _ _ _ (by rw [hlen])]
    rw [hlen]
    simp only [Nat.sub_self, List.getD_cons_zero]
    rw [dipblockLoop_snd]
    have h64 : absorbRun (initState keys) (64 * (n / 64)) 64 =
        hash24 (absorbRun (initState keys) (64 * (n / 64)) 63) (64 * (n / 64) + 63) := rfl
    rw [h64]
  · rw [if_neg h63]
    have hlt : n % 64 < 63 := by omega
    rw [List.getD_append _ _ _ _ (by rw [hlen]; exact hlt)]
    rw [dipblockLoop_getD 63 _ _ _ hlt, dipblockLoop_snd]
    have h64 : absorbRun (initState keys) (64 * (n / 64)) 64 =
        hash24 (absorbRun (initState keys) (64 * (n / 64)) 63) (64 * (n / 64) + 63) := rfl
    rw [h64]

/-! ## Helper lemmas: bucket folds and counts -/

lemma foldl_skipMap {α : Type} (p : α → Bool) (h : α → Nat)
    (g : (Nat → Nat) → Nat → (Nat → Nat)) :
    ∀ (l : List α) (s : Nat → Nat),
      l.foldl (fun s e => if p e then s else g s (h e)) s =
      (l.filterMap (fun e => if p e then none else some (h e))).foldl g s
  | [], _ => rfl
  | e :: l, s => by
      by_cases hp : p e
      · simp only [List.foldl_cons, List.filterMap_cons, hp, if_true, if_pos]
        exact foldl_skipMap p h g l s
      · simp only [List.foldl_cons, List.filterMap_cons, hp, if_false, if_neg,
          Bool.false_eq_true]
        exact foldl_skipMap p h g l (g s (h e))

lemma count_filterMap_skip {α : Type} (p : α → Bool) (h : α → Nat) (z : Nat) :
    ∀ l : List α,
      ((l.filterMap (fun e => if p e then none else some (h e))).count z) =
      (l.filter (fun e => !p e && (h e == z))).length
  | [] => rfl
  | e :: l => by
      by_cases hp : p e
      · simp [hp, count_filterMap_skip p h z l]
      · by_cases hez : h e = z
        · simp [hp, hez, List.count_cons, count_filterMap_skip p h z l]
        · simp [hp, hez, List.count_cons, count_filterMap_skip p h z l]

lemma and_mask_lt {zb a : Nat} : a &&& (2 ^ zb - 1) < 2 ^ zb := by
  rw [Nat.and_pow_two_sub_one_eq_mod]
  exact Nat.mod_lt _ (by positivity)

lemma eq_of_shift_and {zb a b : Nat} (hs : a >>> zb = b >>> zb)
    (hm : a &&& (2 ^ zb - 1) = b &&& (2 ^ zb - 1)) : a = b := by
  rw [Nat.shiftRight_eq_div_pow, Nat.shiftRight_eq_div_pow] at hs
  rw [Nat.and_pow_two_sub_one_eq_mod, Nat.and_pow_two_sub_one_eq_mod] at hm
  have ha := Nat.div_add_mod a (2 ^ zb)
  have hb := Nat.div_add_mod b (2 ^ zb)
  rw [hs] at ha
  omega

/-! ## Helper lemmas: the recovery scan -/

lemma recoverNonces_succ (edgeOf : Nat → Nat × Nat) (N : Nat) (expected : Nat → Nat × Nat)
    (p : Nat) :
    recoverNonces edgeOf (N + 1) expected p =
      if edgeOf N = expected p then N else recoverNonces edgeOf N expected p := by
  rw [recoverNonces, recoverNonces, List.range_succ, List.foldl_append]
  rfl

lemma recoverNonces_pos (edgeOf : Nat → Nat × Nat) (expected : Nat → Nat × Nat) (p : Nat) :
    ∀ N, (∃ n, n < N ∧ 0 < n ∧ edgeOf n = expected p) →
      0 < recoverNonces edgeOf N expected p ∧
      edgeOf (recoverNonces edgeOf N expected p) = expected p ∧
      recoverNonces edgeOf N expected p < N
  | 0, h => absurd h (by simp)
  | N + 1, h => by
      rw [recoverNonces_succ]
      by_cases hN : edgeOf N = expected p
      · obtain ⟨n, hn, hn0, -⟩ := h
        have hNpos : 0 < N := by omega
        rw [if_pos hN]
        exact ⟨hNpos, hN, by omega⟩
      · obtain ⟨n, hn, hn0, hmatch⟩ := h
        have hnN : n < N := by
          rcases Nat.lt_succ_iff_lt_or_eq.mp hn with h' | h'
          · exact h'
          · exact absurd (h' ▸ hmatch) hN
        have ih := recoverNonces_pos edgeOf expected p N ⟨n, hnN, hn0, hmatch⟩
        rw [if_neg hN]
        exact ⟨ih.1, ih.2.1, by omega⟩

lemma recoverNonces_none (edgeOf : Nat → Nat × Nat) (expected : Nat → Nat × Nat) (p : Nat) :
    ∀ N, (∀ n, n < N → edgeOf n ≠ expected p) → recoverNonces edgeOf N expected p = 0
  | 0, _ => rfl
  | N + 1, h => by
      rw [recoverNonces_succ, if_neg (h N (by omega))]
      exact recoverNonces_none edgeOf expected p N (fun n hn => h n (by omega))

lemma recoverNonces_only_zero (edgeOf : Nat → Nat × Nat) (expected : Nat → Nat × Nat)
    (p : Nat) : ∀ N, (∀ n, n < N → 0 < n → edgeOf n ≠ expected p) →
      recoverNonces edgeOf N expected p = 0
  | 0, _ => rfl
  | N + 1, h => by
      rw [recoverNonces_succ]
      by_cases hN : edgeOf N = expected p
      · have : ¬ 0 < N := fun hpos => h N (by omega) hpos hN
        rw [if_pos hN]
        omega
      · rw [if_neg hN]
        exact recoverNonces_only_zero edgeOf expected p N (fun n hn => h n (by omega))

/-! ## Helper lemmas: the staging machine -/

lemma getD_mem {l : List (Nat × Nat)} {i : Nat} (h : i < l.length) (d : Nat × Nat) :
    l.getD i d ∈ l := by
  rw [List.getD_eq_getElem?_getD, List.getElem?_eq_getElem h]
  exact List.getElem_mem h

lemma writeRun_apply : ∀ (l : List (Nat × Nat)) (buf : Nat → Option (Nat × Nat)) (p a : Nat),
    writeRun buf p l a =
      if p ≤ a ∧ a < p + l.length then some (l.getD (a - p) (0, 0)) else buf a
  | [], buf, p, a => by
      rw [writeRun]
      have hc0 : ¬(p ≤ a ∧ a < p + ([] : List (Nat × Nat)).length) := by
        simp only [List.length_nil, Nat.add_zero]
        omega
      rw [if_neg hc0]
  | e :: es, buf, p, a => by
      rw [writeRun, writeRun_apply es]
      rcases Nat.lt_trichotomy a p with hap | hap | hap
      · have h1 : ¬(p + 1 ≤ a ∧ a < p + 1 + es.length) := by omega
        have h2 : ¬(p ≤ a ∧ a < p + (e :: es).length) := by omega
        rw [if_neg h1, if_neg h2, if_neg (by omega : ¬ a = p)]
      · subst hap
        have h1 : ¬(a + 1 ≤ a ∧ a < a + 1 + es.length) := by omega
        have h2 : a ≤ a ∧ a < a + (e :: es).length := by
          simp only [List.length_cons]
          omega
        rw [if_neg h1, if_pos h2, if_pos rfl, Nat.sub_self, List.getD_cons_zero]
      · have hsub : a - p = (a - (p + 1)) + 1 := by omega
        by_cases hin : p + 1 ≤ a ∧ a < p + 1 + es.length
        · have h2 : p ≤ a ∧ a < p + (e :: es).length := by
            simp only [List.length_cons]
            omega
          rw [if_pos hin, if_pos h2, hsub, List.getD_cons_succ]
        · have h2 : ¬(p ≤ a ∧ a < p + (e :: es).length) := by
            simp only [List.length_cons]
            omega
          rw [if_neg hin, if_neg h2, if_neg (by omega : ¬ a = p)]

/-- A clamped-run write lands every cell inside the target bucket's
capacity window: a written cell's edge comes from the written list and the
cell's bucket is `bkt`; other cells are untouched. -/
lemma writeRun_bucket {maxOut bkt idx0 : Nat} {buf : Nat → Option (Nat × Nat)}
    {t : List (Nat × Nat)} (hm : 0 < maxOut) (hlen : t.length ≤ maxOut) :
    ∀ a e, writeRun buf (bkt * maxOut + min idx0 (maxOut - t.length)) t a = some e →
      buf a = some e ∨ (e ∈ t ∧ a / maxOut = bkt) := by
  intro a e h
  rw [writeRun_apply] at h
  by_cases hc : bkt * maxOut + min idx0 (maxOut - t.length) ≤ a ∧
      a < bkt * maxOut + min idx0 (maxOut - t.length) + t.length
  · rw [if_pos hc] at h
    right
    have hidx : a - (bkt * maxOut + min idx0 (maxOut - t.length)) < t.length := by omega
    refine ⟨?_, ?_⟩
    · rw [Option.some_inj] at h
      rw [← h]
      exact getD_mem hidx (0, 0)
    · have hoff : a - bkt * maxOut < maxOut := by omega
      have ha : a = (a - bkt * maxOut) + maxOut * bkt := by
        rw [Nat.mul_comm maxOut bkt]
        omega
      rw [ha, Nat.add_mul_div_left _ _ hm, Nat.div_eq_of_lt hoff, Nat.zero_add]
  · rw [if_neg hc] at h
    exact Or.inl h

/-- A cell of the buffer after a flush holds an old cell's edge or an edge
of the flushed tile, and in the latter case the cell lies inside bucket
`bkt`'s capacity window. -/
lemma flushTile_buf {maxOut bkt : Nat} {st : ScatterState} {r : Nat} (hm : 0 < maxOut)
    (hlen : (st.tiles r).length ≤ maxOut) :
    ∀ a e, (flushTile maxOut bkt st r).buf a = some e →
      st.buf a = some e ∨ (e ∈ st.tiles r ∧ a / maxOut = bkt) := by
  intro a e h
  rw [flushTile] at h
  simp only at h
  exact writeRun_bucket hm hlen a e h

lemma flushTile_scatInv' {route : Nat × Nat → Nat} {bktOf : Nat → Nat}
    {flushN maxOut : Nat} {Q : Nat × Nat → Prop} {st : ScatterState} {r : Nat}
    (hflush : 0 < flushN) (hm : 0 < maxOut)
    (hlen : (st.tiles r).length ≤ maxOut)
    (htile : ∀ x ∈ st.tiles r, route x = r ∧ Q x)
    (htiles' : ∀ r', r' ≠ r → (st.tiles r').length < flushN ∧
      ∀ x ∈ st.tiles r', route x = r' ∧ Q x)
    (hbuf : ∀ a x, st.buf a = some x → a / maxOut = bktOf (route x) ∧ Q x) :
    ScatInv route bktOf flushN maxOut Q (flushTile maxOut (bktOf r) st r) := by
  constructor
  · intro r'
    by_cases hr : r' = r
    · subst hr
      simp [flushTile, hflush]
    · simp only [flushTile, if_neg hr]
      exact htiles' r' hr
  · intro a x hx
    rcases flushTile_buf hm hlen a x hx with hold | ⟨hmem, hdiv⟩
    · exact hbuf a x hold
    · obtain ⟨hroute, hQx⟩ := htile x hmem
      rw [hdiv, hroute]
      exact ⟨rfl, hQx⟩

lemma flushTile_scatInv {route : Nat × Nat → Nat} {bktOf : Nat → Nat}
    {flushN maxOut : Nat} {Q : Nat × Nat → Prop} {st : ScatterState} {r : Nat}
    (hflush : 0 < flushN) (hfm : flushN ≤ maxOut) (hm : 0 < maxOut)
    (hInv : ScatInv route bktOf flushN maxOut Q st) :
    ScatInv route bktOf flushN maxOut Q (flushTile maxOut (bktOf r) st r) := by
  obtain ⟨htiles, hbuf⟩ := hInv
  exact flushTile_scatInv' hflush hm (le_trans (le_of_lt (htiles r).1) hfm)
    (htiles r).2 (fun r' _ => htiles r') hbuf

lemma scatStep_scatInv {route : Nat × Nat → Nat} {skipNull : Bool} {bktOf : Nat → Nat}
    {flushN maxOut : Nat} {Q : Nat × Nat → Prop} {st : ScatterState} {e : Nat × Nat}
    (hflush : 0 < flushN) (hfm : flushN ≤ maxOut) (hm : 0 < maxOut)
    (hInv : ScatInv route bktOf flushN maxOut Q st)
    (hQ : (skipNull && nullPair e) = false → Q e) :
    ScatInv route bktOf flushN maxOut Q
      (scatStep route skipNull bktOf flushN maxOut st e) := by
  obtain ⟨htiles, hbuf⟩ := hInv
  rw [scatStep]
  by_cases hskip : (skipNull && nullPair e) = true
  · rw [if_pos hskip]
    exact ⟨htiles, hbuf⟩
  · rw [if_neg hskip]
    have hQe : Q e := hQ (by simpa using hskip)
    simp only
    have htmem : ∀ x ∈ st.tiles (route e) ++ [e], route x = route e ∧ Q x := by
      intro x hx
      rcases List.mem_append.mp hx with hx | hx
      · exact (htiles (route e)).2 x hx
      · rw [List.mem_singleton.mp hx]
        exact ⟨rfl, hQe⟩
    by_cases hfull : (st.tiles (route e) ++ [e]).length = flushN
    · rw [if_pos hfull]
      refine flushTile_scatInv' hflush hm ?_ ?_ ?_ ?_
      · simp only [if_pos]
        rw [hfull]
        exact hfm
      · simp only [if_pos]
        exact htmem
      · intro r' hr'
        simp only [if_neg hr']
        exact htiles r'
      · exact hbuf
    · rw [if_neg hfull]
      constructor
      · intro r'
        by_cases hr' : r' = route e
        · subst hr'
          have hlt := (htiles (route e)).1
          have hlen1 : (st.tiles (route e) ++ [e]).length =
              (st.tiles (route e)).length + 1 := by simp
          refine ⟨by simpa using (by omega : (st.tiles (route e) ++ [e]).length < flushN),
            by simpa using htmem⟩
        · refine ⟨?_, ?_⟩
          · simpa [hr'] using (htiles r').1
          · simpa [hr'] using (htiles r').2
      · exact hbuf

lemma scatInv_init {route : Nat × Nat → Nat} {bktOf : Nat → Nat} {flushN maxOut : Nat}
    {Q : Nat × Nat → Prop} (hflush : 0 < flushN) :
    ScatInv route bktOf flushN maxOut Q scatInit := by
  constructor
  · intro r
    exact ⟨by simpa [scatInit] using hflush, by simp [scatInit]⟩
  · intro a x hx
    simp [scatInit] at hx

lemma scatFold_scatInv {route : Nat × Nat → Nat} {skipNull : Bool} {bktOf : Nat → Nat}
    {flushN maxOut : Nat} {Q : Nat × Nat → Prop}
    (hflush : 0 < flushN) (hfm : flushN ≤ maxOut) (hm : 0 < maxOut) :
    ∀ (es : List (Nat × Nat)) (st : ScatterState),
      ScatInv route bktOf flushN maxOut Q st →
      (∀ e ∈ es, (skipNull && nullPair e) = false → Q e) →
      ScatInv route bktOf flushN maxOut Q
        (es.foldl (scatStep route skipNull bktOf flushN maxOut) st)
  | [], _, hInv, _ => hInv
  | e :: es, st, hInv, hQ => by
      simp only [List.foldl_cons]
      exact scatFold_scatInv hflush hfm hm es _
        (scatStep_scatInv hflush hfm hm hInv (hQ e (List.mem_cons_self e es)))
        (fun x hx => hQ x (List.mem_cons_of_mem _ hx))

lemma flushLoop_scatInv {route : Nat × Nat → Nat} {bktOf : Nat → Nat}
    {flushN maxOut : Nat} {Q : Nat × Nat → Prop}
    (hflush : 0 < flushN) (hfm : flushN ≤ maxOut) (hm : 0 < maxOut) :
    ∀ (rs : List Nat) (st : ScatterState),
      ScatInv route bktOf flushN maxOut Q st →
      ScatInv route bktOf flushN maxOut Q
        (rs.foldl (fun s r => flushTile maxOut (bktOf r) s r) st)
  | [], _, hInv => hInv
  | r :: rs, st, hInv => by
      simp only [List.foldl_cons]
      exact flushLoop_scatInv hflush hfm hm rs _ (flushTile_scatInv hflush hfm hm hInv)

/-- Every written cell of a finished staging run lies inside the capacity
window of the bucket its edge routes to, and its edge satisfies `Q`. -/
lemma scatRun_buf {route : Nat × Nat → Nat} {skipNull : Bool} {bktOf : Nat → Nat}
    {flushN maxOut nTiles : Nat} {Q : Nat × Nat → Prop}
    (hflush : 0 < flushN) (hfm : flushN ≤ maxOut) (hm : 0 < maxOut)
    (es : List (Nat × Nat))
    (hQ : ∀ e ∈ es, (skipNull && nullPair e) = false → Q e) :
    ∀ a e, (scatRun route skipNull bktOf flushN maxOut nTiles es).buf a = some e →
      a / maxOut = bktOf (route e) ∧ Q e := by
  intro a e h
  have hInv := flushLoop_scatInv hflush hfm hm (List.range nTiles)
    (es.foldl (scatStep route skipNull bktOf flushN maxOut) scatInit)
    (scatFold_scatInv hflush hfm hm es scatInit (scatInv_init hflush) hQ)
  rw [scatRun] at h
  exact hInv.2 a e h

lemma cell_div {maxOut b j : Nat} (hm : 0 < maxOut) (hj : j < maxOut) :
    (b * maxOut + j) / maxOut = b := by
  have h1 : b * maxOut + j = j + maxOut * b := by ring
  rw [h1, Nat.add_mul_div_left _ _ hm, Nat.div_eq_of_lt hj, Nat.zero_add]

lemma grid_decode {nx a b c d : Nat} (hc : c < nx) (hd : d < nx)
    (h : a * nx + c = b * nx + d) : a = b ∧ d = c := by
  have hnx : 0 < nx := by omega
  have h1 : (a * nx + c) / nx = a := cell_div hnx hc
  have h2 : (b * nx + d) / nx = b := cell_div hnx hd
  have hab : a = b := by rw [← h1, ← h2, h]
  subst hab
  exact ⟨rfl, by omega⟩

/-! ## Helper lemmas: the Round kernel -/

lemma RoundCount_eq_ctrLoad (nz round : Nat) (bucket : List (Nat × Nat)) :
    RoundCount nz round bucket = ctrLoad nz (bucket.filterMap
      (fun e => if nullPair e then none
        else some (endpoint e (round &&& 1) &&& (nz - 1)))) :=
  foldl_skipMap nullPair (fun e => endpoint e (round &&& 1) &&& (nz - 1))
    (Increase2bCounter nz) bucket (fun _ => 0)

/-- Reading the counters built by Round phase 1 at an endpoint's Z-residue
answers whether that residue occurs at least twice among the bucket's live
edges. -/
lemma RoundCount_read {zb : Nat} (h5 : 5 ≤ zb) (round : Nat)
    (bucket : List (Nat × Nat)) (w : Nat) :
    Read2bCounter (2 ^ zb) (RoundCount (2 ^ zb) round bucket) (w &&& (2 ^ zb - 1)) =
      decide (2 ≤ (bucket.filter (fun x => !nullPair x &&
        (endpoint x (round &&& 1) &&& (2 ^ zb - 1) == w &&& (2 ^ zb - 1)))).length) := by
  rw [RoundCount_eq_ctrLoad, Read2bCounter_ctrLoad h5 _ ?hb and_mask_lt,
    count_filterMap_skip]
  case hb =>
    intro x hx
    rcases List.mem_filterMap.mp hx with ⟨a, ha, hfa⟩
    by_cases hna : nullPair a
    · rw [if_pos hna] at hfa
      exact absurd hfa (by simp)
    · rw [if_neg hna] at hfa
      rw [← Option.some_inj.mp hfa]
      exact and_mask_lt

/-! ## Helper lemmas: compact versus packed edges -/

lemma endpoint_cuckooNodes (keys : SipKeys) (em n round : Nat) :
    endpoint (cuckooNodes keys em n) (round &&& 1) =
      endpointOfNonce keys em n (round &&& 1) := by
  have h := Nat.and_one_is_mod round
  rcases Nat.mod_two_eq_zero_or_one round with h2 | h2 <;>
    simp [endpoint, cuckooNodes, endpointOfNonce, h, h2]

lemma makeEdge_pair (keys : SipKeys) (em n round : Nat) :
    (if round &&& 1 = 1 then
        (endpointOfNonce keys em n ((round &&& 1) ^^^ 1),
         endpointOfNonce keys em n (round &&& 1))
      else
        (endpointOfNonce keys em n (round &&& 1),
         endpointOfNonce keys em n ((round &&& 1) ^^^ 1)))
    = cuckooNodes keys em n := by
  have h := Nat.and_one_is_mod round
  rcases Nat.mod_two_eq_zero_or_one round with h2 | h2 <;>
    simp [h, h2, endpointOfNonce, cuckooNodes]

lemma RoundCountNonce_map (keys : SipKeys) (em nz round : Nat) :
    ∀ (bucket : List Nat) (s : Nat → Nat),
      (∀ n ∈ bucket, n ≠ 0 ∧ nullPair (cuckooNodes keys em n) = false) →
      bucket.foldl (fun s n => if nullNonce n then s
          else Increase2bCounter nz s
            (endpointOfNonce keys em n (round &&& 1) &&& (nz - 1))) s =
      (bucket.map (cuckooNodes keys em)).foldl (fun s e => if nullPair e then s
          else Increase2bCounter nz s (endpoint e (round &&& 1) &&& (nz - 1))) s
  | [], _, _ => rfl
  | n :: bucket, s, hsent => by
      obtain ⟨hn0, hnp⟩ := hsent n (List.mem_cons_self n bucket)
      have hnn : nullNonce n = false := by simp [nullNonce, hn0]
      simp only [List.map_cons, List.foldl_cons, hnn, hnp, Bool.false_eq_true, if_neg,
        if_false, endpoint_cuckooNodes]
      exact RoundCountNonce_map keys em nz round bucket _
        (fun m hm => hsent m (List.mem_cons_of_mem _ hm))

lemma filterMap_guard {α β : Type} (p : α → Bool) (f : α → β) :
    ∀ l : List α, l.filterMap (fun x => if p x then some (f x) else none) =
      (l.filter p).map f
  | [] => rfl
  | x :: l => by
      by_cases hp : p x
      · simp [hp, filterMap_guard p f l]
      · simp [hp, filterMap_guard p f l]

/-! ## Helper lemmas: the Round destination insert -/

lemma RoundDst_aux (maxOut : Nat) (hm : 0 < maxOut) :
    ∀ (es : List (Nat × Nat)) (c : Nat) (buf : Nat → Option (Nat × Nat)),
      (es.foldl (RoundDstInsert maxOut) (c, buf)).1 = c + es.length ∧
      ∀ j, maxOut ≤ j → buf j = none →
        (es.foldl (RoundDstInsert maxOut) (c, buf)).2 j = none
  | [], c, buf => ⟨by simp, fun _ _ hb => hb⟩
  | e :: es, c, buf => by
      simp only [List.foldl_cons]
      rw [show RoundDstInsert maxOut (c, buf) e =
        ((c + 1 : Nat), fun j => if j = min c (maxOut - 1) then some e else buf j)
        from rfl]
      have ih := RoundDst_aux maxOut hm es (c + 1)
        (fun j => if j = min c (maxOut - 1) then some e else buf j)
      refine ⟨?_, ?_⟩
      · rw [ih.1]
        simp only [List.length_cons]
        omega
      · intro j hj hb
        refine ih.2 j hj ?_
        have hne : j ≠ min c (maxOut - 1) := by
          have : min c (maxOut - 1) ≤ maxOut - 1 := min_le_right _ _
          omega
        rw [if_neg hne]
        exact hb

lemma endpoint_zero (e : Nat × Nat) : endpoint e 0 = e.1 := rfl

lemma cuckarooNodes_fst_le (keys : SipKeys) (em n : Nat) :
    (cuckarooNodes keys em n).1 ≤ em := Nat.and_le_right

lemma dipnode_le (keys : SipKeys) (em n uorv : Nat) :
    dipnode keys em n uorv ≤ em := Nat.and_le_right

/-! ## Claim theorems -/

/-- C1: for every key set and nonce, the Cuckoo-mode edge oracle `dipnode`
returns `siphash24(K, 2n) & EDGEMASK` for endpoint u (uorv = 0) and
`siphash24(K, 2n+1) & EDGEMASK` for endpoint v (uorv = 1), where
`siphash24` is the reference one-shot SipHash-2-4. -/
theorem dipnode_matches_reference_siphash24 (keys : SipKeys) (edgeMask n : Nat) :
    dipnode keys edgeMask n 0 = siphash24 keys (2 * n) &&& edgeMask ∧
    dipnode keys edgeMask n 1 = siphash24 keys (2 * n + 1) &&& edgeMask :=
  ⟨rfl, rfl⟩

/-- C2 (amended): the Cuckaroo-mode 64-bit edge of nonce n equals
`b[n mod 64] XOR b[63]` where `b[i]` is the lane-xor of the CHAINED
SipHash-2-4 state after absorbing nonces `n0 .. n0+i` in order from the
key state (the state is not reset between nonces), `n0 = 64 * (n / 64)`,
and the slot `b[n mod 64]` is read as zero when `n mod 64 = 63`. -/
theorem cuckarooEdge_chained (keys : SipKeys) (n : Nat) (hn : n < 2 ^ 32) :
    cuckarooEdge keys n =
      (if n % 64 = 63 then 0
       else xorLanes (absorbRun (initState keys) (64 * (n / 64)) (n % 64 + 1))) ^^^
      xorLanes (absorbRun (initState keys) (64 * (n / 64)) 64) :=
  cuckarooEdge_chain_aux keys n hn

/-- Witness for C2's amended theorem at keys (0,0,0,0) and nonce 5. -/
theorem cuckarooEdge_chained_witness :
    cuckarooEdge ⟨0, 0, 0, 0⟩ 5 =
      (if 5 % 64 = 63 then 0
       else xorLanes (absorbRun (initState ⟨0, 0, 0, 0⟩) (64 * (5 / 64)) (5 % 64 + 1))) ^^^
      xorLanes (absorbRun (initState ⟨0, 0, 0, 0⟩) (64 * (5 / 64)) 64) :=
  cuckarooEdge_chained ⟨0, 0, 0, 0⟩ 5 (by norm_num)

set_option maxRecDepth 100000 in
/-- C2 counterexample: at keys (0,0,0,0) and nonce 0 the Cuckaroo edge the
code computes differs from the spec's formula `b[n mod 64] XOR b[63]` read
with the one-shot `siphash24` of claim C1: the code chains the SipHash
state across the 64-nonce block instead of hashing each nonce from the
key state. -/
theorem cuckarooEdge_not_one_shot :
    cuckarooEdge ⟨0, 0, 0, 0⟩ 0 ≠ specCuckarooEdge ⟨0, 0, 0, 0⟩ 0 := by
  rw [cuckarooEdge_chain_aux ⟨0, 0, 0, 0⟩ 0 (by norm_num)]
  have h32 : absorbRun (initState ⟨0, 0, 0, 0⟩) 0 32 =
      ⟨9024439932039215841, 5186231221554465842,
       5612796962168442894, 7265373866838581974⟩ := by decide
  have hsplit := absorbRun_append (initState ⟨0, 0, 0, 0⟩) 0 32 32
  norm_num at hsplit
  norm_num [hsplit, h32]
  decide

/-- C4: the two-bit counters are commutative and saturating: loading any
permutation of a multiset of Z-values yields the same plane-1 bits, and
the plane-1 bit of z reads true exactly when z was passed at least twice. -/
theorem Increase2bCounter_commutative_saturating (zb : Nat) (l1 l2 : List Nat) (z : Nat)
    (h5 : 5 ≤ zb) (hperm : l1.Perm l2) (hl : ∀ x ∈ l1, x < 2 ^ zb) (hz : z < 2 ^ zb) :
    Read2bCounter (2 ^ zb) (ctrLoad (2 ^ zb) l1) z =
      Read2bCounter (2 ^ zb) (ctrLoad (2 ^ zb) l2) z ∧
    Read2bCounter (2 ^ zb) (ctrLoad (2 ^ zb) l1) z = decide (2 ≤ l1.count z) := by
  have hl2 : ∀ x ∈ l2, x < 2 ^ zb := fun x hx => hl x (hperm.mem_iff.mpr hx)
  have h1 := Read2bCounter_ctrLoad h5 l1 hl hz
  have h2 := Read2bCounter_ctrLoad h5 l2 hl2 hz
  refine ⟨?_, h1⟩
  rw [h1, h2, hperm.count_eq z]

/-- Witness for C4 at the value lists [3, 7, 3] and [3, 3, 7] and z = 3. -/
theorem Increase2bCounter_commutative_saturating_witness :
    Read2bCounter (2 ^ 5) (ctrLoad (2 ^ 5) [3, 7, 3]) 3 =
      Read2bCounter (2 ^ 5) (ctrLoad (2 ^ 5) [3, 3, 7]) 3 ∧
    Read2bCounter (2 ^ 5) (ctrLoad (2 ^ 5) [3, 7, 3]) 3 =
      decide (2 ≤ ([3, 7, 3] : List Nat).count 3) :=
  Increase2bCounter_commutative_saturating 5 [3, 7, 3] [3, 3, 7] 3 (by norm_num)
    (by decide) (by decide) (by decide)

/-- C3: on a grid bucket (all live edges agree on the counted endpoint's
bits above ZBITS, which the pipeline's routing guarantees), every edge the
Round kernel emits has a counted endpoint occurring at least twice among
the bucket's live non-null edges, and an edge whose counted endpoint
occurs exactly once is dropped. -/
theorem Round_emits_degree_two (zb round B : Nat) (bucket : List (Nat × Nat))
    (e e' : Nat × Nat) (h5 : 5 ≤ zb)
    (hpure : ∀ x ∈ bucket, nullPair x = false → endpoint x (round &&& 1) >>> zb = B)
    (he : e ∈ RoundKeep (2 ^ zb) round bucket)
    (he' : e' ∈ bucket) (hlive' : nullPair e' = false)
    (honce : (bucket.filter (fun x => !nullPair x &&
        (endpoint x (round &&& 1) == endpoint e' (round &&& 1)))).length = 1) :
    2 ≤ (bucket.filter (fun x => !nullPair x &&
        (endpoint x (round &&& 1) == endpoint e (round &&& 1)))).length ∧
    e' ∉ RoundKeep (2 ^ zb) round bucket := by
  have key : ∀ y, y ∈ bucket → nullPair y = false →
      (bucket.filter (fun x => !nullPair x && (endpoint x (round &&& 1) &&& (2 ^ zb - 1) ==
        endpoint y (round &&& 1) &&& (2 ^ zb - 1)))).length =
      (bucket.filter (fun x => !nullPair x &&
        (endpoint x (round &&& 1) == endpoint y (round &&& 1)))).length := by
    intro y hy hylive
    congr 1
    apply List.filter_congr
    intro x hx
    by_cases hnx : nullPair x = true
    · simp [hnx]
    · have hnx' : nullPair x = false := by simpa using hnx
      have hbx := hpure x hx hnx'
      have hby := hpure y hy hylive
      by_cases heq : endpoint x (round &&& 1) = endpoint y (round &&& 1)
      · rw [heq]
        simp
      · have hne : endpoint x (round &&& 1) &&& (2 ^ zb - 1) ≠
            endpoint y (round &&& 1) &&& (2 ^ zb - 1) :=
          fun hmk => heq (eq_of_shift_and (hbx.trans hby.symm) hmk)
        have h1 : (endpoint x (round &&& 1) &&& (2 ^ zb - 1) ==
            endpoint y (round &&& 1) &&& (2 ^ zb - 1)) = false :=
          beq_eq_false_iff_ne.mpr hne
        have h2 : (endpoint x (round &&& 1) == endpoint y (round &&& 1)) = false :=
          beq_eq_false_iff_ne.mpr heq
        rw [h1, h2]
  rw [RoundKeep] at he
  rw [List.mem_filter] at he
  obtain ⟨heb, hepred⟩ := he
  rw [Bool.and_eq_true] at hepred
  obtain ⟨helive, herd⟩ := hepred
  have helive' : nullPair e = false := by simpa using helive
  rw [RoundCount_read h5] at herd
  have hcount : 2 ≤ (bucket.filter (fun x => !nullPair x &&
      (endpoint x (round &&& 1) &&& (2 ^ zb - 1) ==
        endpoint e (round &&& 1) &&& (2 ^ zb - 1)))).length := of_decide_eq_true herd
  refine ⟨by rw [← key e heb helive']; exact hcount, ?_⟩
  intro hmem
  rw [RoundKeep, List.mem_filter] at hmem
  obtain ⟨-, hpred'⟩ := hmem
  rw [Bool.and_eq_true] at hpred'
  obtain ⟨-, hrd'⟩ := hpred'
  rw [RoundCount_read h5] at hrd'
  have h2 : 2 ≤ (bucket.filter (fun x => !nullPair x &&
      (endpoint x (round &&& 1) &&& (2 ^ zb - 1) ==
        endpoint e' (round &&& 1) &&& (2 ^ zb - 1)))).length := of_decide_eq_true hrd'
  rw [key e' he' hlive', honce] at h2
  omega

/-- Witness for C3: zb = 5, round 0, bucket [(1,2),(1,3),(2,9)]; the edge
(1,2) survives (endpoint 1 occurs twice) and (2,9) is dropped (endpoint 2
occurs once). -/
theorem Round_emits_degree_two_witness :
    2 ≤ (([(1, 2), (1, 3), (2, 9)] : List (Nat × Nat)).filter (fun x => !nullPair x &&
        (endpoint x (0 &&& 1) == endpoint (1, 2) (0 &&& 1)))).length ∧
    (2, 9) ∉ RoundKeep (2 ^ 5) 0 [(1, 2), (1, 3), (2, 9)] :=
  Round_emits_degree_two 5 0 0 [(1, 2), (1, 3), (2, 9)] (1, 2) (2, 9) (by norm_num)
    (by decide) (by decide) (by decide) (by decide) (by decide)

/-- C5 (amended): the Round destination insert never writes outside the
bucket's capacity window — every write lands at `min(counter, maxOut - 1)`
— but the raw per-bucket counter counts every insert attempt and so can
exceed the capacity, and inserts beyond capacity overwrite the final slot
rather than being dropped. -/
theorem Round_insert_clamped (maxOut : Nat) (es : List (Nat × Nat)) (j : Nat)
    (hm : 0 < maxOut) (hj : maxOut ≤ j) :
    (RoundDstRun maxOut es).1 = es.length ∧ (RoundDstRun maxOut es).2 j = none := by
  have h := RoundDst_aux maxOut hm es 0 (fun _ => none)
  exact ⟨(h.1).trans (Nat.zero_add _), h.2 j hj rfl⟩

/-- Witness for C5's amended theorem: three inserts into a bucket of
capacity 2 leave the counter at 3 while cell 2 stays unwritten. -/
theorem Round_insert_clamped_witness :
    (RoundDstRun 2 [(1, 1), (2, 2), (3, 3)]).1 = ([(1, 1), (2, 2), (3, 3)] :
      List (Nat × Nat)).length ∧
    (RoundDstRun 2 [(1, 1), (2, 2), (3, 3)]).2 2 = none :=
  Round_insert_clamped 2 [(1, 1), (2, 2), (3, 3)] 2 (by norm_num) (by norm_num)

/-- C5 counterexample: into a bucket of capacity 1, inserting two edges
leaves the raw counter at 2 (exceeding the declared capacity) and
over-writes the full bucket's only slot (the first edge is replaced by
the second rather than the second being dropped). -/
theorem Round_insert_overflow_cex :
    ¬((RoundDstRun 1 [(1, 1), (2, 2)]).1 ≤ 1 ∧
      (RoundDstRun 1 [(1, 1), (2, 2)]).2 0 = some (1, 1)) := by decide

/-- C7: the Tail kernel's copy loop indexes the body with the thread id
`lid` instead of the loop variable `i`; with 2 threads and a bucket of 3
edges, destination cells 0 and 1 receive the first two edges and cell 2 of
the reserved 3-cell run is never written: the surviving-edge multiset is
not preserved. -/
theorem Tail_lid_bug :
    Tail 2 4 0 (fun i => (i + 1, i + 2)) 3 0 (fun _ => none) 0 = some (1, 2) ∧
    Tail 2 4 0 (fun i => (i + 1, i + 2)) 3 0 (fun _ => none) 1 = some (2, 3) ∧
    Tail 2 4 0 (fun i => (i + 1, i + 2)) 3 0 (fun _ => none) 2 = none := by decide

/-- C6 (amended): after Seed A every written cell of row-bucket (r, c)
holds an edge with `endpoint0 >> (YBITS+ZBITS) = r` (and c is the block's
column), and Seed B routes every live edge of a row-bucket to column
`col = (endpoint0 >> ZBITS) & (NX-1)` — the FIRST endpoint, not the
second — so after Seed B bucket (row, c') holds only edges whose first
endpoint selects column c'. -/
theorem Seed_bucket_routing (edgeOf : Nat → Nat × Nat)
    (yzbits xbits col flusha maxOutA r c j : Nat) (nonces : List Nat) (e : Nat × Nat)
    (zbits srcRow flushb maxOutB c' j' : Nat) (src : List (Nat × Nat)) (e' : Nat × Nat)
    (hflA : 0 < flusha) (hfmA : flusha ≤ maxOutA) (hmA : 0 < maxOutA)
    (hcol : col < 2 ^ xbits) (hc : c < 2 ^ xbits) (hj : j < maxOutA)
    (hA : (SeedA edgeOf yzbits (2 ^ xbits) col flusha maxOutA nonces).buf
      ((r * 2 ^ xbits + c) * maxOutA + j) = some e)
    (hflB : 0 < flushb) (hfmB : flushb ≤ maxOutB) (hmB : 0 < maxOutB)
    (hc' : c' < 2 ^ xbits) (hj' : j' < maxOutB)
    (hsrc : ∀ x ∈ src, x.1 >>> yzbits = srcRow)
    (hB : (SeedB zbits (2 ^ xbits - 1) srcRow (2 ^ xbits) flushb maxOutB src).buf
      ((srcRow * 2 ^ xbits + c') * maxOutB + j') = some e') :
    (e.1 >>> yzbits = r ∧ c = col) ∧
    e'.1 >>> yzbits = srcRow ∧ (e'.1 >>> zbits) &&& (2 ^ xbits - 1) = c' := by
  constructor
  · have hA' := @scatRun_buf (fun x => x.1 >>> yzbits) false
      (fun v => v * 2 ^ xbits + col) flusha maxOutA (2 ^ xbits) (fun _ => True)
      hflA hfmA hmA (nonces.map edgeOf) (fun _ _ _ => trivial)
      ((r * 2 ^ xbits + c) * maxOutA + j) e hA
    obtain ⟨hdivA, -⟩ := hA'
    rw [cell_div hmA hj] at hdivA
    obtain ⟨hr, hcc⟩ := grid_decode hc hcol hdivA
    exact ⟨hr.symm, hcc.symm⟩
  · have hB' := @scatRun_buf (fun x => (endpoint x 0 >>> zbits) &&& (2 ^ xbits - 1)) true
      (fun v => srcRow * 2 ^ xbits + v) flushb maxOutB (2 ^ xbits)
      (fun x => x.1 >>> yzbits = srcRow)
      hflB hfmB hmB src (fun x hx _ => hsrc x hx)
      ((srcRow * 2 ^ xbits + c') * maxOutB + j') e' hB
    obtain ⟨hdivB, hQ⟩ := hB'
    rw [cell_div hmB hj'] at hdivB
    obtain ⟨-, hcc⟩ := grid_decode hc' and_mask_lt hdivB
    rw [endpoint_zero] at hcc
    exact ⟨hQ, hcc⟩

/-- Witness for C6's amended theorem on a one-edge Seed A run and a
one-edge Seed B run with two columns and capacity-1 buckets. -/
theorem Seed_bucket_routing_witness :
    (((2, 2) : Nat × Nat).1 >>> 1 = 1 ∧ 0 = 0) ∧
    ((2, 5) : Nat × Nat).1 >>> 1 = 1 ∧ (((2, 5) : Nat × Nat).1 >>> 1) &&& (2 ^ 1 - 1) = 1 :=
  Seed_bucket_routing (fun n => (n, n)) 1 1 0 1 1 1 0 0 [2] (2, 2) 1 1 1 1 1 0 [(2, 5)]
    (2, 5) (by norm_num) (by norm_num) (by norm_num) (by norm_num) (by norm_num)
    (by norm_num) (by decide) (by norm_num) (by norm_num) (by norm_num) (by norm_num)
    (by norm_num) (by decide) (by decide)

/-- C6 counterexample: Seed B routes by the FIRST endpoint
(`endpoint(keys, edge, 0)`), not the second: the edge (2, 0) is stored in
the column-1 bucket (cell 3 = bucket (1,1) at capacity 1) although its
second endpoint selects column (0 >> 1) & 1 = 0 ≠ 1. -/
theorem SeedB_routes_by_first_endpoint_cex :
    (SeedB 1 1 1 2 1 1 [(2, 0)]).buf 3 = some (2, 0) ∧
    (((2, 0) : Nat × Nat).2 >>> 1) &&& (2 - 1) ≠ 1 := by decide

/-- C8: for every expected endpoint pair, the recovery kernels store a
nonce whose re-hashed edge (under the active SipHash mode) equals that
pair whenever some positive nonce below NEDGES matches, and a slot no
nonce matches stays zero — for both the Cuckoo and the Cuckaroo kernel. -/
theorem Recovery_fills_matching_slots (keys : SipKeys) (em N : Nat)
    (expected : Nat → Nat × Nat) (p1 p2 q1 q2 : Nat)
    (hc1 : ∃ n, n < N ∧ 0 < n ∧ cuckooNodes keys em n = expected p1)
    (hc2 : ∀ n, n < N → cuckooNodes keys em n ≠ expected p2)
    (hk1 : ∃ n, n < N ∧ 0 < n ∧ cuckarooNodes keys em n = expected q1)
    (hk2 : ∀ n, n < N → cuckarooNodes keys em n ≠ expected q2) :
    (0 < Cuckoo_Recovery keys em N expected p1 ∧
      cuckooNodes keys em (Cuckoo_Recovery keys em N expected p1) = expected p1) ∧
    Cuckoo_Recovery keys em N expected p2 = 0 ∧
    (0 < Cuckaroo_Recovery keys em N expected q1 ∧
      cuckarooNodes keys em (Cuckaroo_Recovery keys em N expected q1) = expected q1) ∧
    Cuckaroo_Recovery keys em N expected q2 = 0 := by
  obtain ⟨hcp, hcm, -⟩ := recoverNonces_pos (cuckooNodes keys em) expected p1 N hc1
  obtain ⟨hkp, hkm, -⟩ := recoverNonces_pos (cuckarooNodes keys em) expected q1 N hk1
  exact ⟨⟨hcp, hcm⟩, recoverNonces_none (cuckooNodes keys em) expected p2 N hc2,
    ⟨hkp, hkm⟩, recoverNonces_none (cuckarooNodes keys em) expected q2 N hk2⟩

/-- Witness for C8 with keys (0,0,0,0), EDGEMASK 127 and 2 nonces: slots
0 and 2 expect the edges of nonce 1 (Cuckoo resp. Cuckaroo mode), slots 1
and 3 expect the unreachable pair (128, 0). -/
theorem Recovery_fills_matching_slots_witness :
    (0 < Cuckoo_Recovery ⟨0, 0, 0, 0⟩ 127 2 (fun p => if p = 0 then
        cuckooNodes ⟨0, 0, 0, 0⟩ 127 1 else if p = 1 then (128, 0)
        else if p = 2 then cuckarooNodes ⟨0, 0, 0, 0⟩ 127 1 else (128, 0)) 0 ∧
      cuckooNodes ⟨0, 0, 0, 0⟩ 127 (Cuckoo_Recovery ⟨0, 0, 0, 0⟩ 127 2 (fun p =>
        if p = 0 then cuckooNodes ⟨0, 0, 0, 0⟩ 127 1 else if p = 1 then (128, 0)
        else if p = 2 then cuckarooNodes ⟨0, 0, 0, 0⟩ 127 1 else (128, 0)) 0) =
        (fun p => if p = 0 then cuckooNodes ⟨0, 0, 0, 0⟩ 127 1 else if p = 1 then (128, 0)
        else if p = 2 then cuckarooNodes ⟨0, 0, 0, 0⟩ 127 1 else (128, 0)) 0) ∧
    Cuckoo_Recovery ⟨0, 0, 0, 0⟩ 127 2 (fun p => if p = 0 then
        cuckooNodes ⟨0, 0, 0, 0⟩ 127 1 else if p = 1 then (128, 0)
        else if p = 2 then cuckarooNodes ⟨0, 0, 0, 0⟩ 127 1 else (128, 0)) 1 = 0 ∧
    (0 < Cuckaroo_Recovery ⟨0, 0, 0, 0⟩ 127 2 (fun p => if p = 0 then
        cuckooNodes ⟨0, 0, 0, 0⟩ 127 1 else if p = 1 then (128, 0)
        else if p = 2 then cuckarooNodes ⟨0, 0, 0, 0⟩ 127 1 else (128, 0)) 2 ∧
      cuckarooNodes ⟨0, 0, 0, 0⟩ 127 (Cuckaroo_Recovery ⟨0, 0, 0, 0⟩ 127 2 (fun p =>
        if p = 0 then cuckooNodes ⟨0, 0, 0, 0⟩ 127 1 else if p = 1 then (128, 0)
        else if p = 2 then cuckarooNodes ⟨0, 0, 0, 0⟩ 127 1 else (128, 0)) 2) =
        (fun p => if p = 0 then cuckooNodes ⟨0, 0, 0, 0⟩ 127 1 else if p = 1 then (128, 0)
        else if p = 2 then cuckarooNodes ⟨0, 0, 0, 0⟩ 127 1 else (128, 0)) 2) ∧
    Cuckaroo_Recovery ⟨0, 0, 0, 0⟩ 127 2 (fun p => if p = 0 then
        cuckooNodes ⟨0, 0, 0, 0⟩ 127 1 else if p = 1 then (128, 0)
        else if p = 2 then cuckarooNodes ⟨0, 0, 0, 0⟩ 127 1 else (128, 0)) 3 = 0 :=
  Recovery_fills_matching_slots ⟨0, 0, 0, 0⟩ 127 2 (fun p => if p = 0 then
      cuckooNodes ⟨0, 0, 0, 0⟩ 127 1 else if p = 1 then (128, 0)
      else if p = 2 then cuckarooNodes ⟨0, 0, 0, 0⟩ 127 1 else (128, 0)) 0 1 2 3
    ⟨1, by norm_num, by norm_num, rfl⟩
    (by decide)
    ⟨1, by norm_num, by norm_num, rfl⟩
    (fun n _ h => by
      have hle := cuckarooNodes_fst_le ⟨0, 0, 0, 0⟩ 127 n
      have h1 := congrArg Prod.fst h
      simp at h1
      omega)

/-- C10: both recovery kernels store a slot only when the recorded nonce
is strictly positive, so a slot whose only matching nonce is 0 keeps its
prior output value even though a matching edge exists. -/
theorem Recovery_skips_nonce_zero (edgeOf : Nat → Nat × Nat) (N : Nat)
    (expected : Nat → Nat × Nat) (init : Nat → Nat) (p : Nat)
    (h0 : edgeOf 0 = expected p)
    (hno : ∀ n, n < N → 0 < n → edgeOf n ≠ expected p) :
    recoverNonces edgeOf N expected p = 0 ∧
    recoveryStore init (recoverNonces edgeOf N expected) p = init p := by
  have hz := recoverNonces_only_zero edgeOf expected p N hno
  refine ⟨hz, ?_⟩
  rw [recoveryStore, hz]
  simp

/-- Witness for C10: the pair (1, 5) is matched only by nonce 0, so the
output slot keeps its prior value 7. -/
theorem Recovery_skips_nonce_zero_witness :
    recoverNonces (fun n => (n + 1, 5)) 3 (fun _ => (1, 5)) 0 = 0 ∧
    recoveryStore (fun _ => 7) (recoverNonces (fun n => (n + 1, 5)) 3 (fun _ => (1, 5))) 0
      = 7 :=
  Recovery_skips_nonce_zero (fun n => (n + 1, 5)) 3 (fun _ => (1, 5)) (fun _ => 7) 0
    rfl (by decide)

/-- C9 (amended): on any bucket free of null sentinels (no zero nonce, no
all-zero edge), one Round pass over compact (nonce) edges emits exactly
the same uint2 edges as the same pass over the corresponding packed
edges: re-deriving endpoints with `dipnode` on demand is equivalent to
carrying them. -/
theorem Round_expand_equivalent (keys : SipKeys) (em nz round : Nat) (bucket : List Nat)
    (hsent : ∀ n ∈ bucket, n ≠ 0 ∧ nullPair (cuckooNodes keys em n) = false) :
    RoundKeepNonce keys em nz round bucket =
      RoundKeep nz round (bucket.map (cuckooNodes keys em)) := by
  have hs : RoundCountNonce keys em nz round bucket =
      RoundCount nz round (bucket.map (cuckooNodes keys em)) :=
    RoundCountNonce_map keys em nz round bucket (fun _ => 0) hsent
  rw [RoundKeepNonce, RoundKeep, hs]
  rw [List.filter_map]
  rw [← filterMap_guard ((fun e => !nullPair e && Read2bCounter nz
      (RoundCount nz round (bucket.map (cuckooNodes keys em)))
      (endpoint e (round &&& 1) &&& (nz - 1))) ∘ cuckooNodes keys em)
    (cuckooNodes keys em) bucket]
  apply List.filterMap_congr
  intro n hn
  obtain ⟨hn0, hnp⟩ := hsent n hn
  have hnn : nullNonce n = false := by simp [nullNonce, hn0]
  simp only [Function.comp_apply, hnn, hnp, Bool.not_false, Bool.true_and,
    endpoint_cuckooNodes, makeEdge_pair]

/-- Witness for C9's amended theorem on the sentinel-free bucket [1, 2]. -/
theorem Round_expand_equivalent_witness :
    RoundKeepNonce ⟨0, 0, 0, 0⟩ (2 ^ 19 - 1) 32 0 [1, 2] =
      RoundKeep 32 0 ([1, 2].map (cuckooNodes ⟨0, 0, 0, 0⟩ (2 ^ 19 - 1))) :=
  Round_expand_equivalent ⟨0, 0, 0, 0⟩ (2 ^ 19 - 1) 32 0 [1, 2] (by decide)

/-- C9 counterexample: on a bucket containing the zero nonce, the compact
pipeline treats it as the null sentinel and drops it, while the packed
pipeline keeps its (non-null) edge: the two expansion modes emit different
residual edges. -/
theorem Round_expand_nonce_zero_cex :
    RoundKeepNonce ⟨0, 0, 0, 0⟩ (2 ^ 19 - 1) 32 0 [0, 0] ≠
      RoundKeep 32 0 ([0, 0].map (cuckooNodes ⟨0, 0, 0, 0⟩ (2 ^ 19 - 1))) := by decide

end CuckooGPU
